import Mathlib

/-!
# Verification of the lightflow command-line client against its specification

Shallow embedding of `src/lightflow/scripts/cli.py` (the only source file of
the repository): the `run`, `stop`, `worker`, `config` and `info` command
bodies are translated into executable Lean definitions, and the behavioural
claims about them are settled as theorems.  Collaborators that are not under
`src/` (`lightflow.stop_tasks`, `lightflow.stop_all_workflows`, the
configuration collaborator's document) are modelled from the specification and
marked as such in their doc comments.
-/

set_option maxHeartbeats 1000000

namespace LightflowCli

/-- The Python exception classes that arise in the parts of `cli.py` modelled
here: `valueError` is Python's built-in `ValueError` (raised for instance by
`dict(...)` on a sequence element that is not a pair), `workflowArgumentError`
is `lightflow.models.exceptions.WorkflowArgumentError` (imported at cli.py
line 6), and `attributeError` is Python's built-in `AttributeError`. -/
inductive PyErr where
  | valueError
  | workflowArgumentError
  | attributeError
  deriving DecidableEq

/-- Embedding of Python `s.split(c, maxsplit=1)` on the character list of `s`:
scan for the first occurrence of `c`, with `cur` holding the already-scanned
prefix in reverse; at the first occurrence the remainder is returned whole.
Used for `arg.split('=', maxsplit=1)` at cli.py line 93. -/
def splitFirstAux (c : Char) (cur : List Char) : List Char → List (List Char)
  | [] => [cur.reverse]
  | x :: xs => if x = c then [cur.reverse, xs] else splitFirstAux c (x :: cur) xs

/-- Python `arg.split('=', maxsplit=1)` (cli.py line 93). -/
def splitEq (s : String) : List String :=
  (splitFirstAux '=' [] s.data).map String.mk

/-- CPython dict assignment `d[k] = v` on an insertion-ordered association
list: when the key is already present its value is replaced in place,
otherwise the pair is appended. -/
def dictInsert (d : List (String × String)) (k v : String) :
    List (String × String) :=
  if k ∈ d.map Prod.fst then
    d.map (fun p => if p.1 = k then (k, v) else p)
  else
    d ++ [(k, v)]

/-- The value a Python dict stores for a key: first (and, by the `dictInsert`
invariant, only) match in the insertion-ordered association list. -/
def dictFind (k : String) : List (String × String) → Option String
  | [] => none
  | (a, b) :: d => if a = k then some b else dictFind k d

/-- CPython `dict(pairs)` over the materialised list of split results built at
cli.py line 93: elements are consumed left to right, each must be a two-element
sequence `[k, v]` (otherwise `ValueError` is raised at that element), and a
repeated key overwrites the earlier value. -/
def pyDictAux (acc : List (String × String)) :
    List (List String) → Except PyErr (List (String × String))
  | [] => Except.ok acc
  | p :: rest =>
    match p with
    | [k, v] => pyDictAux (dictInsert acc k v) rest
    | _ => Except.error PyErr.valueError

/-- Outcome of the `run` command body (cli.py lines 91-97), up to the
collaborator call: `submitted name second arguments` means
`lightflow.run_workflow` is entered with exactly these three arguments (queue
submissions can only happen inside that call); `argErrorReported` means a
`WorkflowArgumentError` was caught by the handler at line 94 and echoed to the
caller; `uncaught e` means the exception `e` escaped the handler. -/
inductive RunOutcome where
  | submitted (name : String) (second : Bool) (arguments : List (String × String))
  | argErrorReported
  | uncaught (e : PyErr)
  deriving DecidableEq

/-- Embedding of the `run` command body (cli.py lines 84-97).  The argument
expression `dict([arg.split('=', maxsplit=1) for arg in args])` is evaluated
before `run_workflow` is entered; if it raises, the handler at line 94 catches
the exception only when it is a `WorkflowArgumentError`, and any other
exception propagates to the caller.  When it succeeds, line 92 invokes
`run_workflow(name, not keep_data, d)`: the second argument is the negation of
the `--keep-data` flag. -/
def runCommand (keep_data : Bool) (name : String) (args : List String) :
    RunOutcome :=
  match pyDictAux [] (args.map splitEq) with
  | Except.ok d => RunOutcome.submitted name (!keep_data) d
  | Except.error e =>
    if e = PyErr.workflowArgumentError then RunOutcome.argErrorReported
    else RunOutcome.uncaught e

/-- The key part of a run-argument token: the substring before its first `'='`,
i.e. the head of `arg.split('=', maxsplit=1)`. -/
def keyOf (s : String) : String := (splitEq s).headD ""

/-- The value part of a run-argument token: the substring after its first
`'='`, i.e. the last element of `arg.split('=', maxsplit=1)`. -/
def valOf (s : String) : String := (splitEq s).getLastD ""

/-- The number of `'='` characters in a token. -/
def eqCount (s : String) : Nat := s.data.count '='

/-- A task record as consumed by the `stop` command's reporting loop (cli.py
lines 117-120) and described by the spec's data model: fields `name`, `type`
and `id` of the Python task dicts. -/
structure TaskRec where
  name : String
  type : String
  id : String
  deriving DecidableEq

/-- Which collaborator call the `stop` command makes (cli.py lines 107-114):
`noCall` when the id list is empty (the command echoes a usage message and
returns), `allWorkflows` for `lightflow.stop_all_workflows()`, and
`tasksWith ids` for `lightflow.stop_tasks(ids)`. -/
inductive StopCall where
  | noCall
  | allWorkflows
  | tasksWith (ids : List String)
  deriving DecidableEq

/-- Embedding of the dispatch logic of the `stop` command (cli.py lines
107-114): an empty id list short-circuits; if the sentinel `'all'` occurs
anywhere in the ids, `stop_all_workflows()` is called; otherwise
`stop_tasks(ids)` is called with exactly the given ids. -/
def stopDispatch (ids : List String) : StopCall :=
  if ids.length = 0 then StopCall.noCall
  else if "all" ∈ ids then StopCall.allWorkflows
  else StopCall.tasksWith ids

/-- Modelled from the spec: `lightflow.stop_tasks` is not under src/.  Per
spec §4.6 it returns the list of affected task records and "if no task matches
the given id(s), the call returns an empty list".  The active/scheduled task
population is an explicit list and a task matches when its id is among the
requested ids. -/
def stop_tasks (active : List TaskRec) (ids : List String) : List TaskRec :=
  active.filter (fun t => t.id ∈ ids)

/-- Modelled from the spec: `lightflow.stop_all_workflows` is not under src/.
Per spec §4.6 it affects "every currently active/scheduled workflow-type
task", returning the affected records (empty when there are none). -/
def stop_all_workflows (active : List TaskRec) : List TaskRec :=
  active.filter (fun t => t.type = "workflow")

/-- What the `stop` command reports (cli.py lines 107-122): a usage message
for an empty id list, one stop line per affected task, or the not-found
message when the affected list is empty.  No branch raises. -/
inductive StopOutcome where
  | askForIds
  | stoppedReport (tasks : List TaskRec)
  | notFound
  deriving DecidableEq

/-- Embedding of the full `stop` command body (cli.py lines 102-122) over the
explicit model of the active/scheduled task population. -/
def stopCommand (active : List TaskRec) (ids : List String) : StopOutcome :=
  if ids.length = 0 then StopOutcome.askForIds
  else
    let tasks_stopped :=
      if "all" ∈ ids then stop_all_workflows active else stop_tasks active ids
    if tasks_stopped.length > 0 then StopOutcome.stoppedReport tasks_stopped
    else StopOutcome.notFound

/-- Embedding of Python `s.split(c)` (no maxsplit) on the character list of
`s`: split at every occurrence of `c`, with `cur` holding the current piece in
reverse.  Used for `queues.split(',')` at cli.py line 130. -/
def splitAllAux (c : Char) (cur : List Char) : List Char → List (List Char)
  | [] => [cur.reverse]
  | x :: xs =>
    if x = c then cur.reverse :: splitAllAux c [] xs
    else splitAllAux c (x :: cur) xs

/-- Python `queues.split(',')` (cli.py line 130). -/
def pySplit (c : Char) (s : String) : List String :=
  (splitAllAux c [] s.data).map String.mk

/-- The default of the `--queues` option (cli.py line 126). -/
def queuesDefault : String := "workflow,dag,task"

/-- Embedding of the `worker` command (cli.py lines 128-130): the list of
queue names handed to the collaborator `lightflow.run_worker`. -/
def workerCommand (queues : String) : List String :=
  pySplit ',' queues

/-- Putting split pieces back together with the separator between adjacent
pieces; used to state that `workerCommand` splits its input at every comma. -/
def charIntercalate (c : Char) : List (List Char) → List Char
  | [] => []
  | [a] => a
  | a :: b :: rest => a ++ c :: charIntercalate c (b :: rest)

/-- The opening-brace character of the format-string placeholders at cli.py
line 36, written via its code point. -/
def lbrace : Char := Char.ofNat 123

/-- The closing-brace character of the format-string placeholders at cli.py
line 36, written via its code point. -/
def rbrace : Char := Char.ofNat 125

/-- Embedding of Python `str.format` restricted to plain positional
placeholders, the shape used for the broker URI at cli.py line 36: scan the
template, replacing each adjacent open-close brace pair by the next argument;
as in CPython, substituted text is not re-scanned. -/
def pyFormatAux : List Char → List String → List Char
  | [], _ => []
  | x :: y :: rest, a :: args =>
    if x = lbrace ∧ y = rbrace then a.data ++ pyFormatAux rest args
    else x :: pyFormatAux (y :: rest) (a :: args)
  | x :: xs, args => x :: pyFormatAux xs args

/-- A broker connection descriptor as reported per worker (spec §6) and
consumed by the `info` command at cli.py lines 36-40; the port is an integer
rendered in decimal by `format`. -/
structure BrokerDesc where
  transport : String
  hostname : String
  port : Nat
  virtual_host : String

/-- The URI part of the format string at cli.py line 36 (`{}://{}:{}/{}`), as
a character-list template with the braces given by their code points. -/
def uriTemplate : List Char :=
  [lbrace, rbrace, ':', '/', '/', lbrace, rbrace, ':', lbrace, rbrace,
    '/', lbrace, rbrace]

/-- Embedding of the broker line of the `info` command (cli.py lines 36-40):
the URI format string applied, in order, to the descriptor's transport,
hostname, port and virtual host. -/
def brokerLine (b : BrokerDesc) : String :=
  String.mk (pyFormatAux uriTemplate
    [b.transport, b.hostname, toString b.port, b.virtual_host])

/-- What the module-level name `config` can denote while cli.py runs. -/
inductive ConfigDenotation where
  | clickCommand
  | configCollaborator
  deriving DecidableEq

/-- Which of the two objects expose a callable `default` attribute: the
configuration collaborator does (it is the source of the default document,
spec §6), while a `click.Command` object exposes no attribute `default`. -/
def exposesDefault : ConfigDenotation → Bool
  | ConfigDenotation.clickCommand => false
  | ConfigDenotation.configCollaborator => true

/-- Name resolution for `config` at cli.py line 137: inside the function body
the name `config` is not a local variable, so Python resolves it in the module
globals, where the `@click.command()` decorator at line 133 has rebound
`config` to the resulting `click.Command` object.  The configuration
collaborator is reachable only under the alias `lf_config` introduced at
cli.py line 4. -/
def configNameAtCall : ConfigDenotation := ConfigDenotation.clickCommand

/-- Outcome of the `config` command (cli.py lines 134-137). -/
inductive ConfigOutcome where
  | written (doc : String)
  | uncaughtAttributeError
  deriving DecidableEq

/-- Embedding of the `config` command body (cli.py lines 136-137),
parameterised by the default document the configuration collaborator would
produce: `open('lightflow.cfg', 'w')` truncates the file, then
`config.default()` is evaluated; looking up the attribute `default` on an
object that does not expose it raises `AttributeError`, so nothing is ever
written. -/
def configCommand (defaultDoc : String) : ConfigOutcome :=
  if exposesDefault configNameAtCall then ConfigOutcome.written defaultDoc
  else ConfigOutcome.uncaughtAttributeError

theorem splitFirstAux_of_not_mem (c : Char) :
    ∀ (l cur : List Char), c ∉ l → splitFirstAux c cur l = [cur.reverse ++ l]
  | [], cur, _ => by simp [splitFirstAux]
  | x :: xs, cur, h => by
    have hx : ¬ x = c := fun he => h (he ▸ List.mem_cons_self x xs)
    have hxs : c ∉ xs := fun hm => h (List.mem_cons_of_mem x hm)
    simp only [splitFirstAux, if_neg hx]
    rw [splitFirstAux_of_not_mem c xs (x :: cur) hxs]
    simp

theorem splitFirstAux_of_mem (c : Char) :
    ∀ (l cur : List Char), c ∈ l →
      ∃ pre suf, l = pre ++ c :: suf ∧ c ∉ pre ∧
        splitFirstAux c cur l = [cur.reverse ++ pre, suf]
  | [], _, h => absurd h (List.not_mem_nil c)
  | x :: xs, cur, h => by
    by_cases hx : x = c
    · subst hx
      exact ⟨[], xs, by simp, by simp, by simp [splitFirstAux]⟩
    · have hxs : c ∈ xs := by
        rcases List.mem_cons.mp h with h1 | h1
        · exact absurd h1.symm hx
        · exact h1
      obtain ⟨pre, suf, hdec, hpre, heq⟩ := splitFirstAux_of_mem c xs (x :: cur) hxs
      refine ⟨x :: pre, suf, by simp [hdec], ?_, ?_⟩
      · intro hm
        rcases List.mem_cons.mp hm with h1 | h1
        · exact hx h1.symm
        · exact hpre h1
      · simp only [splitFirstAux, if_neg hx]
        rw [heq]
        simp

theorem mk_data (s : String) : String.mk s.data = s := by
  cases s
  rfl

theorem splitEq_of_no_eq (s : String) (h : '=' ∉ s.data) : splitEq s = [s] := by
  unfold splitEq
  rw [splitFirstAux_of_not_mem '=' s.data [] h]
  simp [mk_data]

theorem splitEq_of_eq (s : String) (h : '=' ∈ s.data) :
    ∃ k v : String, splitEq s = [k, v] ∧ '=' ∉ k.data ∧
      k.data ++ '=' :: v.data = s.data := by
  obtain ⟨pre, suf, hdec, hpre, heq⟩ := splitFirstAux_of_mem '=' s.data [] h
  refine ⟨String.mk pre, String.mk suf, ?_, hpre, by simp [hdec]⟩
  unfold splitEq
  rw [heq]
  simp

theorem dictFind_cons (k a b : String) (d : List (String × String)) :
    dictFind k ((a, b) :: d) = if a = k then some b else dictFind k d := rfl

theorem map_overwrite_cons (k v a b : String) (d : List (String × String)) :
    ((a, b) :: d).map (fun p => if p.1 = k then (k, v) else p) =
      (if a = k then (k, v) else (a, b)) ::
        d.map (fun p => if p.1 = k then (k, v) else p) := rfl

theorem dictInsert_cons_self (b k v : String) (d : List (String × String)) :
    dictInsert ((k, b) :: d) k v =
      (k, v) :: (d.map fun p => if p.1 = k then (k, v) else p) := by
  have hc : k ∈ ((k, b) :: d).map Prod.fst := by simp
  unfold dictInsert
  rw [if_pos hc, map_overwrite_cons, if_pos rfl]

theorem dictInsert_cons_ne (a b k v : String) (d : List (String × String))
    (h : a ≠ k) :
    dictInsert ((a, b) :: d) k v = (a, b) :: dictInsert d k v := by
  have hmem : k ∈ ((a, b) :: d).map Prod.fst ↔ k ∈ d.map Prod.fst := by
    simp only [List.map_cons, List.mem_cons]
    constructor
    · rintro (h1 | h1)
      · exact absurd h1.symm h
      · exact h1
    · exact Or.inr
  unfold dictInsert
  by_cases hm : k ∈ d.map Prod.fst
  · rw [if_pos hm, if_pos (hmem.mpr hm), map_overwrite_cons, if_neg h]
  · rw [if_neg hm, if_neg (fun hc => hm (hmem.mp hc)), List.cons_append]

theorem dictFind_dictInsert_self (k v : String) :
    ∀ d : List (String × String), dictFind k (dictInsert d k v) = some v
  | [] => by
    have h0 : dictInsert [] k v = [(k, v)] := by simp [dictInsert]
    rw [h0, dictFind_cons, if_pos rfl]
  | (a, b) :: d => by
    by_cases hak : a = k
    · subst hak
      rw [dictInsert_cons_self, dictFind_cons, if_pos rfl]
    · rw [dictInsert_cons_ne a b k v d hak, dictFind_cons, if_neg hak]
      exact dictFind_dictInsert_self k v d

theorem dictFind_map_overwrite (k' k v : String) (h : k' ≠ k) :
    ∀ d : List (String × String),
      dictFind k' (d.map fun p => if p.1 = k then (k, v) else p) = dictFind k' d
  | [] => rfl
  | (a, b) :: d => by
    rw [map_overwrite_cons]
    by_cases hak : a = k
    · rw [if_pos hak, dictFind_cons, if_neg (fun he => h he.symm),
        dictFind_cons, if_neg (fun he => h (he.symm.trans hak))]
      exact dictFind_map_overwrite k' k v h d
    · rw [if_neg hak, dictFind_cons, dictFind_cons]
      by_cases hak' : a = k'
      · rw [if_pos hak', if_pos hak']
      · rw [if_neg hak', if_neg hak']
        exact dictFind_map_overwrite k' k v h d

theorem dictFind_dictInsert_ne (k' k v : String) (h : k' ≠ k) :
    ∀ d : List (String × String),
      dictFind k' (dictInsert d k v) = dictFind k' d
  | [] => by
    have h0 : dictInsert [] k v = [(k, v)] := by simp [dictInsert]
    rw [h0, dictFind_cons, if_neg (fun he => h he.symm)]
  | (a, b) :: d => by
    by_cases hak : a = k
    · subst hak
      rw [dictInsert_cons_self, dictFind_cons, if_neg (fun he => h he.symm),
        dictFind_cons, if_neg (fun he => h he.symm)]
      exact dictFind_map_overwrite k' a v h d
    · rw [dictInsert_cons_ne a b k v d hak, dictFind_cons, dictFind_cons]
      by_cases hak' : a = k'
      · rw [if_pos hak', if_pos hak']
      · rw [if_neg hak', if_neg hak']
        exact dictFind_dictInsert_ne k' k v h d

theorem pyDictAux_cons_pair (acc : List (String × String)) (k v : String)
    (rest : List (List String)) :
    pyDictAux acc ([k, v] :: rest) = pyDictAux (dictInsert acc k v) rest := rfl

theorem pyDictAux_cons_single (acc : List (String × String)) (t : String)
    (rest : List (List String)) :
    pyDictAux acc ([t] :: rest) = Except.error PyErr.valueError := rfl

theorem pyDictAux_error_of_bad (t : String) :
    ∀ (args : List String) (acc : List (String × String)), t ∈ args →
      '=' ∉ t.data →
      pyDictAux acc (args.map splitEq) = Except.error PyErr.valueError
  | [], _, ht, _ => absurd ht (List.not_mem_nil t)
  | t' :: rest, acc, ht, hne => by
    rw [List.map_cons]
    by_cases h' : '=' ∈ t'.data
    · obtain ⟨k, v, hkv, -, -⟩ := splitEq_of_eq t' h'
      rw [hkv, pyDictAux_cons_pair]
      have htr : t ∈ rest := by
        rcases List.mem_cons.mp ht with h1 | h1
        · subst h1
          exact absurd h' hne
        · exact h1
      exact pyDictAux_error_of_bad t rest (dictInsert acc k v) htr hne
    · rw [splitEq_of_no_eq t' h', pyDictAux_cons_single]

theorem keyOf_of_splitEq (t k v : String) (h : splitEq t = [k, v]) :
    keyOf t = k := by
  rw [keyOf, h]
  rfl

theorem valOf_of_splitEq (t k v : String) (h : splitEq t = [k, v]) :
    valOf t = v := by
  rw [valOf, h]
  rfl

theorem pyDictAux_find_preserved :
    ∀ (args : List String) (acc d : List (String × String)) (k : String),
      pyDictAux acc (args.map splitEq) = Except.ok d →
      (∀ t ∈ args, keyOf t ≠ k) →
      dictFind k d = dictFind k acc
  | [], acc, d, k, h, _ => by
    rw [List.map_nil] at h
    cases h
    rfl
  | t :: rest, acc, d, k, h, hk => by
    rw [List.map_cons] at h
    by_cases h' : '=' ∈ t.data
    · obtain ⟨k', v', hkv, -, -⟩ := splitEq_of_eq t h'
      rw [hkv, pyDictAux_cons_pair] at h
      have hkne : k' ≠ k := keyOf_of_splitEq t k' v' hkv ▸
        hk t (List.mem_cons_self t rest)
      have hrec := pyDictAux_find_preserved rest (dictInsert acc k' v') d k h
        (fun t' ht' => hk t' (List.mem_cons_of_mem t ht'))
      rw [hrec, dictFind_dictInsert_ne k k' v' (fun he => hkne he.symm)]
    · rw [splitEq_of_no_eq t h', pyDictAux_cons_single] at h
      exact absurd h (by simp)

theorem eqCount_one_mem (t : String) (h : eqCount t = 1) : '=' ∈ t.data := by
  have hpos : 0 < t.data.count '=' := by
    rw [show t.data.count '=' = eqCount t from rfl, h]
    exact Nat.one_pos
  exact List.count_pos_iff.mp hpos

theorem pyDictAux_wellformed :
    ∀ (args : List String) (acc : List (String × String)),
      (∀ t ∈ args, eqCount t = 1) → (args.map keyOf).Nodup →
      ∃ d, pyDictAux acc (args.map splitEq) = Except.ok d ∧
        ∀ t ∈ args, dictFind (keyOf t) d = some (valOf t)
  | [], acc, _, _ => ⟨acc, rfl, by simp⟩
  | t :: rest, acc, h1, h2 => by
    have hmem : '=' ∈ t.data := eqCount_one_mem t (h1 t (List.mem_cons_self t rest))
    obtain ⟨k, v, hkv, -, -⟩ := splitEq_of_eq t hmem
    have hkey : keyOf t = k := keyOf_of_splitEq t k v hkv
    have hval : valOf t = v := valOf_of_splitEq t k v hkv
    rw [List.map_cons, List.nodup_cons] at h2
    obtain ⟨hnotin, hnd⟩ := h2
    obtain ⟨d, hd, hfind⟩ := pyDictAux_wellformed rest (dictInsert acc k v)
      (fun t' ht' => h1 t' (List.mem_cons_of_mem t ht')) hnd
    refine ⟨d, by rw [List.map_cons, hkv, pyDictAux_cons_pair]; exact hd, ?_⟩
    intro t' ht'
    rcases List.mem_cons.mp ht' with h1' | h1'
    · subst h1'
      rw [hkey, hval]
      have hpres : dictFind k d = dictFind k (dictInsert acc k v) :=
        pyDictAux_find_preserved rest (dictInsert acc k v) d k hd
          (fun u hu he =>
            hnotin (hkey ▸ he ▸ List.mem_map_of_mem keyOf hu))
      rw [hpres, dictFind_dictInsert_self]
    · exact hfind t' h1'

theorem pyDictAux_append_ok_inv (l₂ : List (List String)) :
    ∀ (l₁ : List (List String)) (acc d : List (String × String)),
      pyDictAux acc (l₁ ++ l₂) = Except.ok d →
      ∃ m, pyDictAux acc l₁ = Except.ok m ∧ pyDictAux m l₂ = Except.ok d
  | [], acc, d, h => ⟨acc, rfl, h⟩
  | p :: rest, acc, d, h => by
    match p with
    | [k, v] =>
      obtain ⟨m, h1, h2⟩ :=
        pyDictAux_append_ok_inv l₂ rest (dictInsert acc k v) d h
      exact ⟨m, h1, h2⟩
    | [] => exact absurd h (by simp [pyDictAux])
    | [k] => exact absurd h (by simp [pyDictAux])
    | k :: v :: x :: xs => exact absurd h (by simp [pyDictAux])

theorem charIntercalate_cons₂ (c : Char) (a b : List Char)
    (rest : List (List Char)) :
    charIntercalate c (a :: b :: rest) = a ++ c :: charIntercalate c (b :: rest) :=
  rfl

theorem splitAllAux_ne_nil (c : Char) :
    ∀ (l cur : List Char), splitAllAux c cur l ≠ []
  | [], cur => by simp [splitAllAux]
  | x :: xs, cur => by
    by_cases hx : x = c
    · simp [splitAllAux, hx]
    · simp only [splitAllAux, if_neg hx]
      exact splitAllAux_ne_nil c xs (x :: cur)

theorem charIntercalate_splitAllAux (c : Char) :
    ∀ (l cur : List Char),
      charIntercalate c (splitAllAux c cur l) = cur.reverse ++ l
  | [], cur => by simp [splitAllAux, charIntercalate]
  | x :: xs, cur => by
    by_cases hx : x = c
    · simp only [splitAllAux, if_pos hx]
      obtain ⟨s, S, hS⟩ : ∃ s S, splitAllAux c [] xs = s :: S := by
        cases h : splitAllAux c [] xs with
        | nil => exact absurd h (splitAllAux_ne_nil c xs [])
        | cons s S => exact ⟨s, S, rfl⟩
      rw [hS, charIntercalate_cons₂, ← hS, charIntercalate_splitAllAux c xs []]
      simp [hx]
    · simp only [splitAllAux, if_neg hx]
      rw [charIntercalate_splitAllAux c xs (x :: cur)]
      simp

theorem splitAllAux_no_sep (c : Char) :
    ∀ (l cur : List Char), c ∉ cur → ∀ p ∈ splitAllAux c cur l, c ∉ p
  | [], cur, hc => by
    intro p hp
    simp only [splitAllAux, List.mem_singleton] at hp
    subst hp
    simpa using hc
  | x :: xs, cur, hc => by
    intro p hp
    by_cases hx : x = c
    · simp only [splitAllAux, if_pos hx] at hp
      rcases List.mem_cons.mp hp with h1 | h1
      · subst h1
        simpa using hc
      · exact splitAllAux_no_sep c xs [] (List.not_mem_nil c) p h1
    · simp only [splitAllAux, if_neg hx] at hp
      refine splitAllAux_no_sep c xs (x :: cur) ?_ p hp
      intro hm
      rcases List.mem_cons.mp hm with h1 | h1
      · exact hx h1.symm
      · exact hc h1

theorem map_data_map_mk (L : List (List Char)) :
    (L.map String.mk).map String.data = L := by
  rw [List.map_map]
  have h : (String.data ∘ String.mk) = id := funext (fun l => rfl)
  rw [h, List.map_id]

/-- C1, counterexample to the claim as stated: for the invocation
`run demo bad` the failure is an uncaught Python `ValueError` from the dict
construction at cli.py line 93, not a `WorkflowArgumentError` reported
synchronously by the handler at line 94. -/
theorem c1_counterexample :
    runCommand false "demo" ["bad"] ≠ RunOutcome.argErrorReported ∧
    runCommand false "demo" ["bad"] = RunOutcome.uncaught PyErr.valueError := by
  exact ⟨by decide, by decide⟩

/-- C1 (amended): for every invocation of the run command whose argument token
list contains a token with no '=' character, the invocation fails
synchronously before `run_workflow` is entered — so `run_workflow` is never
invoked and zero queue submissions occur — but the failure is a `ValueError`
raised by the dict construction at cli.py line 93 that the
`WorkflowArgumentError` handler does not catch, not a `WorkflowArgumentError`. -/
theorem c1_run_malformed_token (kd : Bool) (name : String)
    (args : List String) (t : String) (ht : t ∈ args) (hne : '=' ∉ t.data) :
    runCommand kd name args = RunOutcome.uncaught PyErr.valueError := by
  unfold runCommand
  rw [pyDictAux_error_of_bad t args [] ht hne]
  rfl

theorem c1_witness :
    runCommand false "demo" ["key=1", "bad"] =
      RunOutcome.uncaught PyErr.valueError :=
  c1_run_malformed_token false "demo" ["key=1", "bad"] "bad" (by decide)
    (by decide)

/-- C2: the claim says the default configuration document is emitted without
raising; in fact the `config` command always raises `AttributeError`, because
the name `config` at cli.py line 137 denotes the click command object created
by the decorator at line 133 (the configuration collaborator is only reachable
as `lf_config`, the alias imported at line 4 and used by the group callback at
line 18), and that object exposes no `default` attribute.  This holds for
every document the configuration collaborator could produce, so nothing is
ever written to `lightflow.cfg`. -/
theorem c2_config_attribute_error (doc : String) :
    configCommand doc = ConfigOutcome.uncaughtAttributeError := rfl

/-- C4, counterexample to the claim as stated: with the `--keep-data` flag
given (`keep_data = true`), `run_workflow` receives `false` as its second
argument, not `true`: cli.py line 92 passes `not keep_data`. -/
theorem c4_counterexample :
    runCommand true "demo" ["a=1"] =
      RunOutcome.submitted "demo" false [("a", "1")] ∧
    runCommand true "demo" ["a=1"] ≠
      RunOutcome.submitted "demo" true [("a", "1")] := by
  exact ⟨by decide, by decide⟩

/-- C4 (amended): whenever the argument tokens parse (so `run_workflow` is
reached), the second argument passed to `run_workflow` is the negation of the
`--keep-data` flag: the flag given means `run_workflow` receives `false`, the
flag absent means it receives `true`. -/
theorem c4_keep_data_negated (kd : Bool) (name : String) (args : List String)
    (d : List (String × String))
    (h : pyDictAux [] (args.map splitEq) = Except.ok d) :
    runCommand kd name args = RunOutcome.submitted name (!kd) d := by
  unfold runCommand
  rw [h]

theorem c4_witness :
    runCommand true "wf" ["x=5"] = RunOutcome.submitted "wf" false [("x", "5")] :=
  c4_keep_data_negated true "wf" ["x=5"] [("x", "5")] rfl

/-- C5: for every invocation of the stop command with a non-empty id list, if
the list contains the sentinel 'all' then `stop_all_workflows()` is invoked,
and otherwise `stop_tasks` is invoked with exactly the given ids (cli.py lines
107-114). -/
theorem c5_stop_dispatch (ids : List String) (h : ids ≠ []) :
    (("all" ∈ ids) → stopDispatch ids = StopCall.allWorkflows) ∧
    (("all" ∉ ids) → stopDispatch ids = StopCall.tasksWith ids) := by
  have hlen : ¬ ids.length = 0 := fun h0 => h (List.length_eq_zero.mp h0)
  constructor
  · intro hm
    unfold stopDispatch
    rw [if_neg hlen, if_pos hm]
  · intro hm
    unfold stopDispatch
    rw [if_neg hlen, if_neg hm]

theorem c5_witness :
    stopDispatch ["w1", "w2"] = StopCall.tasksWith ["w1", "w2"] :=
  (c5_stop_dispatch ["w1", "w2"] (by decide)).2 (by decide)

/-- C9: for every invocation of the stop command whose id list contains 'all'
together with other ids, only `stop_all_workflows()` is invoked and
`stop_tasks` is never called with any id list: the membership test at cli.py
line 111 ignores the remaining ids entirely. -/
theorem c9_all_overrides (ids : List String) (h : "all" ∈ ids) :
    stopDispatch ids = StopCall.allWorkflows ∧
    ∀ rest : List String, stopDispatch ids ≠ StopCall.tasksWith rest := by
  have hlen : ¬ ids.length = 0 := by
    intro hz
    rw [List.length_eq_zero.mp hz] at h
    exact absurd h (List.not_mem_nil _)
  have hd : stopDispatch ids = StopCall.allWorkflows := by
    unfold stopDispatch
    rw [if_neg hlen, if_pos h]
  refine ⟨hd, fun rest hc => ?_⟩
  rw [hd] at hc
  exact StopCall.noConfusion hc

theorem c9_witness :
    stopDispatch ["all", "w1"] = StopCall.allWorkflows ∧
    ∀ rest : List String, stopDispatch ["all", "w1"] ≠ StopCall.tasksWith rest :=
  c9_all_overrides ["all", "w1"] (by decide)

theorem string_data_inj (a b : String) (h : a.data = b.data) : a = b := by
  cases a
  cases b
  exact congrArg String.mk h

/-- C8: for every worker entry displayed by the info command, the broker
connection descriptor is rendered by the format string at cli.py line 36 as
the connection URI transport://hostname:port/virtual_host. -/
theorem c8_broker_uri (b : BrokerDesc) :
    brokerLine b = b.transport ++ "://" ++ b.hostname ++ ":" ++
      toString b.port ++ "/" ++ b.virtual_host := by
  have h1 : ¬(':' = lbrace) := by decide
  have h2 : ¬('/' = lbrace) := by decide
  apply string_data_inj
  show pyFormatAux uriTemplate
    [b.transport, b.hostname, toString b.port, b.virtual_host] = _
  simp only [uriTemplate, pyFormatAux, h1, h2, false_and, if_false,
    if_true, and_self, if_pos, String.data_append]
  simp

/-- C3, counterexample to the claim as stated: for the token list
`["x=1", "x=2"]` — every token containing exactly one '=' — the resulting
mapping does not send the key part of the first token to its value part:
the later token overwrote it. -/
theorem c3_counterexample :
    eqCount "x=1" = 1 ∧ eqCount "x=2" = 1 ∧
    pyDictAux [] (List.map splitEq ["x=1", "x=2"]) = Except.ok [("x", "2")] ∧
    dictFind (keyOf "x=1") [("x", "2")] ≠ some (valOf "x=1") := by
  refine ⟨by decide, by decide, rfl, by decide⟩

/-- C3 (amended): for every list of tokens each containing exactly one '='
and with pairwise distinct key parts, the run command builds the arguments
mapping sending the substring before the '=' of each token to the substring
after it, and passes that mapping to `run_workflow` (cli.py lines 91-93); in
particular `["a=1", "b=2"]` yields the mapping a ↦ 1, b ↦ 2. -/
theorem c3_run_arguments_mapping (args : List String)
    (h1 : ∀ t ∈ args, eqCount t = 1)
    (h2 : (args.map keyOf).Nodup) :
    ∃ d, (∀ kd name, runCommand kd name args =
        RunOutcome.submitted name (!kd) d) ∧
      ∀ t ∈ args, dictFind (keyOf t) d = some (valOf t) := by
  obtain ⟨d, hd, hfind⟩ := pyDictAux_wellformed args [] h1 h2
  refine ⟨d, fun kd name => ?_, hfind⟩
  unfold runCommand
  rw [hd]

theorem c3_witness :
    ∃ d, (∀ kd name, runCommand kd name ["a=1", "b=2"] =
        RunOutcome.submitted name (!kd) d) ∧
      ∀ t ∈ (["a=1", "b=2"] : List String),
        dictFind (keyOf t) d = some (valOf t) :=
  c3_run_arguments_mapping ["a=1", "b=2"] (by decide) (by decide)

/-- C6: for every stop invocation in which no task matches the given id(s) —
in the `stop_tasks` branch no active/scheduled task has its id among the
requested ids, in the `stop_all_workflows` branch no workflow-type task is
active — the collaborator call returns the empty list and the command
completes by echoing the not-found message; no branch of cli.py lines 107-122
raises. -/
theorem c6_stop_no_match (active : List TaskRec) (ids : List String)
    (h0 : ids ≠ []) :
    (("all" ∉ ids) → (∀ t ∈ active, t.id ∉ ids) →
      stop_tasks active ids = [] ∧
      stopCommand active ids = StopOutcome.notFound) ∧
    (("all" ∈ ids) → (∀ t ∈ active, t.type ≠ "workflow") →
      stop_all_workflows active = [] ∧
      stopCommand active ids = StopOutcome.notFound) := by
  have hlen : ¬ ids.length = 0 := fun hz => h0 (List.length_eq_zero.mp hz)
  constructor
  · intro hall hno
    have hempty : stop_tasks active ids = [] := by
      rw [stop_tasks, List.filter_eq_nil_iff]
      intro t ht
      simpa using hno t ht
    refine ⟨hempty, ?_⟩
    simp [stopCommand, hlen, hall, hempty]
  · intro hall hwf
    have hempty : stop_all_workflows active = [] := by
      rw [stop_all_workflows, List.filter_eq_nil_iff]
      intro t ht
      simpa using hwf t ht
    refine ⟨hempty, ?_⟩
    simp [stopCommand, hlen, hall, hempty]

theorem c6_witness :
    stop_tasks [⟨"crop", "task", "w1"⟩] ["nope"] = [] ∧
    stopCommand [⟨"crop", "task", "w1"⟩] ["nope"] = StopOutcome.notFound :=
  (c6_stop_no_match [⟨"crop", "task", "w1"⟩] ["nope"] (by decide)).1
    (by decide) (by decide)

/-- C7: invoked without `--queues`, the worker runtime is started with exactly
the queues workflow, dag, task (the default at cli.py line 126); and for every
`--queues` value the subscribed queue list is obtained by splitting the value
at every ',' (cli.py line 130): no piece contains a ',' and joining the pieces
with ',' restores the value. -/
theorem c7_worker_queues :
    workerCommand queuesDefault = ["workflow", "dag", "task"] ∧
    ∀ q : String,
      charIntercalate ',' ((workerCommand q).map String.data) = q.data ∧
      ∀ p ∈ workerCommand q, ',' ∉ p.data := by
  refine ⟨by decide, fun q => ⟨?_, ?_⟩⟩
  · unfold workerCommand pySplit
    rw [map_data_map_mk]
    simpa using charIntercalate_splitAllAux ',' q.data []
  · intro p hp
    unfold workerCommand pySplit at hp
    obtain ⟨l, hl, hpl⟩ := List.mem_map.mp hp
    subst hpl
    exact splitAllAux_no_sep ',' q.data [] (List.not_mem_nil ',') l hl

theorem c7_witness :
    ',' ∉ ("dag" : String).data :=
  (c7_worker_queues.2 "workflow,dag,task").2 "dag" (by decide)

/-- C10: a token with more than one '=' is split only at the first one — the
concrete token `k=v1=v2` contributes key `k` and value `v1=v2`, and in general
the key part of any token containing '=' is '='-free and rejoins with '=' and
the value part into the token — and when two tokens yield the same key, the
later token's value overwrites the earlier one: the value stored for the key
part of the last token is always its value part. -/
theorem c10_split_first_and_overwrite :
    splitEq "k=v1=v2" = ["k", "v1=v2"] ∧
    (∀ s : String, '=' ∈ s.data →
      ∃ k v : String, splitEq s = [k, v] ∧ '=' ∉ k.data ∧
        k.data ++ '=' :: v.data = s.data) ∧
    ∀ (ts : List String) (t k v : String) (d : List (String × String)),
      splitEq t = [k, v] →
      pyDictAux [] ((ts ++ [t]).map splitEq) = Except.ok d →
      dictFind k d = some v := by
  refine ⟨by decide, splitEq_of_eq, ?_⟩
  intro ts t k v d hsplit h
  rw [List.map_append] at h
  obtain ⟨m, hm1, hm2⟩ :=
    pyDictAux_append_ok_inv ([t].map splitEq) (ts.map splitEq) [] d h
  rw [List.map_cons, List.map_nil, hsplit, pyDictAux_cons_pair] at hm2
  cases hm2
  exact dictFind_dictInsert_self k v m

theorem c10_witness :
    dictFind "k" [("k", "v2")] = some "v2" :=
  c10_split_first_and_overwrite.2.2 ["k=v1"] "k=v2" "k" "v2" [("k", "v2")]
    (by decide) rfl

end LightflowCli
